import Mathlib

/-!
Verification of the Punjab live-bus backend (main.py, moving_sim.py).

The simulator state and its step function (moving_sim.py, class BusThread)
are embedded over exact rationals: Python floats are read as exact
arithmetic, Python ints as integers.  The calls the simulator makes into
the random module are passed in as explicit data (a coin for each
random.random() comparison and a raw natural for each randint draw; a raw
draw r for randint(0, m) denotes the value r % (m + 1), which ranges over
exactly the interval [0, m] that randint returns).  A Python expression
that can raise (list indexing, randint with an inverted range) is embedded
as an Option, with none for the raised exception.

The geometric part of main.py (haversine_m and the nearest endpoint) is
embedded over the reals, since it is built from sin, cos, atan2 and sqrt.
-/

namespace SIH

/-- One precomputed route segment of moving_sim.py (BusThread.__init__,
lines 109-117): endpoints a, b as (lat, lon) pairs and the distance in km. -/
structure Segment where
  a : ℚ × ℚ
  b : ℚ × ℚ
  dist_km : ℚ
deriving DecidableEq

/-- The mutable per-bus state of BusThread that step and
get_current_latlon touch: current_segment, frac and occupancy. -/
structure BusState where
  current_segment : ℕ
  frac : ℚ
  occupancy : ℤ
deriving DecidableEq

/-- The random draws one call to BusThread.step can consume: the two
random.random() < p coins and the two raw randint draws. -/
structure StepRand where
  alight_coin : Bool
  alight_draw : ℕ
  board_coin : Bool
  board_draw : ℕ
deriving DecidableEq

/-- interp of moving_sim.py line 91-92. -/
def interp (a b frac : ℚ) : ℚ := a + (b - a) * frac

/-- Lines 141-143 of moving_sim.py: with probability 0.3 draw
alighting_passengers = randint(0, min(3, occupancy)) and set
occupancy = max(0, occupancy - alighting_passengers).  none models the
ValueError randint raises when min(3, occupancy) < 0. -/
def alight_update (coin : Bool) (draw : ℕ) (occ : ℤ) : Option ℤ :=
  if coin then
    if min 3 occ < 0 then none
    else some (max 0 (occ - (draw % ((min 3 occ).toNat + 1) : ℕ)))
  else some occ

/-- Lines 149-151 of moving_sim.py: with probability 0.2 draw
boarding_passengers = randint(0, min(2, 50 - occupancy)) and set
occupancy = min(50, occupancy + boarding_passengers). -/
def board_update (coin : Bool) (draw : ℕ) (occ : ℤ) : Option ℤ :=
  if coin then
    if min 2 (50 - occ) < 0 then none
    else some (min 50 (occ + (draw % ((min 2 (50 - occ)).toNat + 1) : ℕ)))
  else some occ

/-- BusThread.step (moving_sim.py lines 128-155).  Reads the current
segment (none when the index is out of range), advances frac by
(speed_kmph / 3600) * dt / max(1e-6, dist_km) (or jumps frac to 1.0 when
dist_km <= 0), and on frac >= 1.0 runs the stop logic: alighting, segment
increment mod the segment count, frac reset to 0.0, boarding, and the
final cap of occupancy at 50. -/
def step (segments : List Segment) (speed_kmph dt_sec : ℚ) (r : StepRand)
    (st : BusState) : Option BusState :=
  match segments[st.current_segment]? with
  | none => none
  | some seg =>
    let frac1 : ℚ :=
      if seg.dist_km ≤ 0 then 1
      else st.frac + speed_kmph / 3600 * dt_sec / max (1 / 1000000) seg.dist_km
    if 1 ≤ frac1 then
      match alight_update r.alight_coin r.alight_draw st.occupancy with
      | none => none
      | some occ1 =>
        match board_update r.board_coin r.board_draw occ1 with
        | none => none
        | some occ2 =>
          some ⟨(st.current_segment + 1) % segments.length, 0,
            if 50 < occ2 then 50 else occ2⟩
    else some { st with frac := frac1 }

/-- BusThread.get_current_latlon (moving_sim.py lines 119-126): linear
interpolation along the current segment plus the jitter drawn from
uniform(-SIMULATION_JITTER, SIMULATION_JITTER), passed here as jlat, jlon. -/
def get_current_latlon (segments : List Segment) (jlat jlon : ℚ)
    (st : BusState) : Option (ℚ × ℚ) :=
  match segments[st.current_segment]? with
  | none => none
  | some seg =>
    some (interp seg.a.1 seg.b.1 st.frac + jlat, interp seg.a.2 seg.b.2 st.frac + jlon)

/-- A finite sequence of step calls, each with its elapsed dt and its
random draws. -/
def stepFold (segments : List Segment) (speed_kmph : ℚ) :
    List (ℚ × StepRand) → BusState → Option BusState
  | [], st => some st
  | c :: rest, st =>
    match step segments speed_kmph c.1 c.2 st with
    | none => none
    | some st' => stepFold segments speed_kmph rest st'

/-- The segment-list construction of BusThread.__init__ (moving_sim.py
lines 109-117): one segment per consecutive waypoint pair with its
distance from the given distance function (haversine_km in the source);
when no segment results, the degenerate fallback segment built from
waypoints[0] with dist 0.1 km — none when waypoints is empty, since
waypoints[0] then raises IndexError. -/
def mkSegments (hav : ℚ × ℚ → ℚ × ℚ → ℚ) (waypoints : List (ℚ × ℚ)) :
    Option (List Segment) :=
  let segs := (waypoints.zip waypoints.tail).map fun p => ⟨p.1, p.2, hav p.1 p.2⟩
  if segs.isEmpty then
    match waypoints[0]? with
    | none => none
    | some w => some [⟨w, w, 1 / 10⟩]
  else some segs

/-- The state invariant a constructed BusThread establishes: the segment
index is in range and occupancy lies in [0, 50] (the constructor draws
occupancy from randint(8, 35)). -/
def Inv (segments : List Segment) (st : BusState) : Prop :=
  st.current_segment < segments.length ∧ 0 ≤ st.occupancy ∧ st.occupancy ≤ 50

instance (segments : List Segment) (st : BusState) : Decidable (Inv segments st) := by
  unfold Inv; infer_instance

theorem alight_update_bounds (coin : Bool) (draw : ℕ) (occ : ℤ) (h0 : 0 ≤ occ) :
    ∃ o, alight_update coin draw occ = some o ∧ 0 ≤ o ∧ o ≤ occ := by
  cases coin with
  | false => exact ⟨occ, rfl, h0, le_refl occ⟩
  | true =>
    have hm : ¬ min 3 occ < 0 := by omega
    refine ⟨max 0 (occ - (draw % ((min 3 occ).toNat + 1) : ℕ)), ?_, le_max_left 0 _, ?_⟩
    · simp only [alight_update, if_true, if_neg hm]
    · have hk : (0:ℤ) ≤ ((draw % ((min 3 occ).toNat + 1) : ℕ) : ℤ) := Int.natCast_nonneg _
      exact max_le h0 (by omega)

theorem board_update_bounds (coin : Bool) (draw : ℕ) (occ : ℤ)
    (h0 : 0 ≤ occ) (h50 : occ ≤ 50) :
    ∃ o, board_update coin draw occ = some o ∧ 0 ≤ o ∧ o ≤ 50 := by
  cases coin with
  | false => exact ⟨occ, rfl, h0, h50⟩
  | true =>
    have hm : ¬ min 2 (50 - occ) < 0 := by omega
    refine ⟨min 50 (occ + (draw % ((min 2 (50 - occ)).toNat + 1) : ℕ)), ?_, ?_, min_le_left 50 _⟩
    · simp only [board_update, if_true, if_neg hm]
    · have hk : (0:ℤ) ≤ ((draw % ((min 2 (50 - occ)).toNat + 1) : ℕ) : ℤ) := Int.natCast_nonneg _
      exact le_min (by omega) (by omega)

/-- step, unfolded at a state whose segment index is in range. -/
theorem step_eq (segments : List Segment) (speed_kmph dt_sec : ℚ) (r : StepRand)
    (st : BusState) (seg : Segment) (hseg : segments[st.current_segment]? = some seg) :
    step segments speed_kmph dt_sec r st =
      (if 1 ≤ (if seg.dist_km ≤ 0 then (1:ℚ)
              else st.frac + speed_kmph / 3600 * dt_sec / max (1 / 1000000) seg.dist_km) then
        match alight_update r.alight_coin r.alight_draw st.occupancy with
        | none => none
        | some occ1 =>
          match board_update r.board_coin r.board_draw occ1 with
          | none => none
          | some occ2 =>
            some ⟨(st.current_segment + 1) % segments.length, 0,
              if 50 < occ2 then 50 else occ2⟩
      else some { st with frac :=
        if seg.dist_km ≤ 0 then (1:ℚ)
        else st.frac + speed_kmph / 3600 * dt_sec / max (1 / 1000000) seg.dist_km }) := by
  unfold step
  rw [hseg]

/-- One step from a state satisfying the invariant succeeds and preserves
the invariant. -/
theorem step_inv (segments : List Segment) (speed_kmph dt_sec : ℚ)
    (r : StepRand) (st : BusState) (h : Inv segments st) :
    ∃ st', step segments speed_kmph dt_sec r st = some st' ∧ Inv segments st' := by
  obtain ⟨hidx, hocc0, hocc50⟩ := h
  rw [step_eq segments speed_kmph dt_sec r st segments[st.current_segment]
    (List.getElem?_eq_getElem hidx)]
  by_cases hwrap : 1 ≤ (if segments[st.current_segment].dist_km ≤ 0 then (1:ℚ)
      else st.frac + speed_kmph / 3600 * dt_sec /
        max (1 / 1000000) segments[st.current_segment].dist_km)
  · rw [if_pos hwrap]
    obtain ⟨o1, ho1, ho1l, ho1u⟩ :=
      alight_update_bounds r.alight_coin r.alight_draw st.occupancy hocc0
    obtain ⟨o2, ho2, ho2l, ho2u⟩ :=
      board_update_bounds r.board_coin r.board_draw o1 ho1l (le_trans ho1u hocc50)
    rw [ho1]
    dsimp only
    rw [ho2]
    have hlen : 0 < segments.length := Nat.lt_of_le_of_lt (Nat.zero_le _) hidx
    refine ⟨⟨(st.current_segment + 1) % segments.length, 0,
      if 50 < o2 then 50 else o2⟩, rfl, Nat.mod_lt _ hlen, ?_, ?_⟩ <;>
      dsimp only <;> split <;> omega
  · rw [if_neg hwrap]
    exact ⟨_, rfl, hidx, hocc0, hocc50⟩

/-- Iterating step from a state satisfying the invariant succeeds and
preserves the invariant. -/
theorem stepFold_inv (segments : List Segment) (speed_kmph : ℚ)
    (calls : List (ℚ × StepRand)) (st : BusState) (h : Inv segments st) :
    ∃ st', stepFold segments speed_kmph calls st = some st' ∧ Inv segments st' := by
  induction calls generalizing st with
  | nil => exact ⟨st, rfl, h⟩
  | cons c rest ih =>
    obtain ⟨st1, hst1, hinv1⟩ := step_inv segments speed_kmph c.1 c.2 st h
    obtain ⟨st2, hst2, hinv2⟩ := ih st1 hinv1
    exact ⟨st2, by simp only [stepFold, hst1, hst2], hinv2⟩

/-- C2: for a simulator over a constructed (nonempty) segment list with
initial occupancy drawn from [8, 35], after any prefix of any finite
sequence of step calls with dt >= 0 and any random draws, the occupancy is
an integer in [0, 50] (and no call raises). -/
theorem stepFold_occupancy_in_range (segments : List Segment) (speed_kmph : ℚ)
    (calls : List (ℚ × StepRand)) (k : ℕ) (occ0 : ℤ)
    (hne : segments ≠ []) (h8 : 8 ≤ occ0) (h35 : occ0 ≤ 35)
    (hdt : ∀ c ∈ calls, 0 ≤ c.1) :
    ∃ st', stepFold segments speed_kmph (calls.take k) ⟨0, 0, occ0⟩ = some st' ∧
      0 ≤ st'.occupancy ∧ st'.occupancy ≤ 50 := by
  have hlen : 0 < segments.length := List.length_pos.mpr hne
  obtain ⟨st', h1, -, h3, h4⟩ :=
    stepFold_inv segments speed_kmph (calls.take k) ⟨0, 0, occ0⟩
      ⟨hlen, le_trans (by norm_num) h8, le_trans h35 (by norm_num)⟩
  exact ⟨st', h1, h3, h4⟩

/-- Witness for C2 at a concrete simulator and call sequence. -/
theorem stepFold_occupancy_in_range_witness :
    ∃ st', stepFold [⟨(0, 0), (1, 1), 1⟩] 25
        ([((5 : ℚ), ⟨true, 2, true, 1⟩), ((3 : ℚ), ⟨false, 0, true, 7⟩)].take 2)
        ⟨0, 0, 10⟩ = some st' ∧ 0 ≤ st'.occupancy ∧ st'.occupancy ≤ 50 :=
  stepFold_occupancy_in_range _ _ _ _ _ (by decide) (by decide) (by decide) (by decide)

/-- C8: from any state satisfying the constructor's invariant (occupancy
in [0, 50], segment index within the segment list), step never raises for
any dt and any draws — and preserves the invariant — and
get_current_latlon never raises for any jitter. -/
theorem step_and_latlon_never_raise (segments : List Segment)
    (speed_kmph dt_sec jlat jlon : ℚ) (r : StepRand) (st : BusState)
    (h : Inv segments st) :
    (∃ st', step segments speed_kmph dt_sec r st = some st' ∧ Inv segments st') ∧
      ∃ p, get_current_latlon segments jlat jlon st = some p := by
  refine ⟨step_inv _ _ _ _ _ h, ?_⟩
  obtain ⟨hidx, -, -⟩ := h
  exact ⟨_, by unfold get_current_latlon; rw [List.getElem?_eq_getElem hidx]⟩

/-- Witness for C8 at a concrete state (with a negative dt). -/
theorem step_and_latlon_never_raise_witness :
    (∃ st', step [⟨(0, 0), (0, 1), 1⟩] 25 (-4) ⟨true, 3, true, 2⟩ ⟨0, 1/2, 50⟩ = some st' ∧
        Inv [⟨(0, 0), (0, 1), 1⟩] st') ∧
      ∃ p, get_current_latlon [⟨(0, 0), (0, 1), 1⟩] (1/1000000) (-1/1000000) ⟨0, 1/2, 50⟩ = some p :=
  step_and_latlon_never_raise _ _ _ _ _ _ _ (by decide)

/-- C10: a step call that does not complete the current segment (positive
segment length, advanced frac still strictly below 1) only changes frac:
occupancy and the current segment index are unchanged. -/
theorem step_nonwrap_frame (segments : List Segment) (speed_kmph dt_sec : ℚ)
    (r : StepRand) (st : BusState) (seg : Segment)
    (hseg : segments[st.current_segment]? = some seg)
    (hdt : 0 ≤ dt_sec) (hpos : 0 < seg.dist_km)
    (hlt : st.frac + speed_kmph / 3600 * dt_sec / max (1 / 1000000) seg.dist_km < 1) :
    ∃ st', step segments speed_kmph dt_sec r st = some st' ∧
      st'.occupancy = st.occupancy ∧ st'.current_segment = st.current_segment ∧
      st'.frac = st.frac + speed_kmph / 3600 * dt_sec / max (1 / 1000000) seg.dist_km := by
  rw [step_eq segments speed_kmph dt_sec r st seg hseg]
  simp only [if_neg (not_le.mpr hpos)]
  rw [if_neg (not_le.mpr hlt)]
  exact ⟨_, rfl, rfl, rfl, rfl⟩

/-- Witness for C10 at a concrete non-completing step. -/
theorem step_nonwrap_frame_witness :
    ∃ st', step [⟨(0, 0), (0, 1), 1⟩] 25 5 ⟨true, 3, true, 2⟩ ⟨0, 0, 10⟩ = some st' ∧
      st'.occupancy = (⟨0, 0, 10⟩ : BusState).occupancy ∧
      st'.current_segment = (⟨0, 0, 10⟩ : BusState).current_segment ∧
      st'.frac = (⟨0, 0, 10⟩ : BusState).frac + 25 / 3600 * 5 / max (1 / 1000000) (⟨(0, 0), (0, 1), 1⟩ : Segment).dist_km :=
  step_nonwrap_frame _ _ _ _ _ _ (by decide) (by decide) (by decide)
    (by norm_num [max_def])

theorem stepFold_cons (segments : List Segment) (speed_kmph : ℚ)
    (c : ℚ × StepRand) (rest : List (ℚ × StepRand)) (st : BusState) :
    stepFold segments speed_kmph (c :: rest) st =
      match step segments speed_kmph c.1 c.2 st with
      | none => none
      | some st' => stepFold segments speed_kmph rest st' := rfl

theorem stepFold_traverse_aux (segments : List Segment) (speed_kmph : ℚ)
    (seg : Segment) (i : ℕ) (hseg : segments[i]? = some seg)
    (hL : 1 / 1000000 ≤ seg.dist_km) (hv : 0 < speed_kmph) :
    ∀ (calls : List (ℚ × StepRand)) (f : ℚ) (occ : ℤ), calls ≠ [] →
      (∀ c ∈ calls, 0 < c.1) → 0 ≤ occ → occ ≤ 50 →
      f + speed_kmph / 3600 * (calls.map Prod.fst).sum / seg.dist_km = 1 →
      ∃ st', stepFold segments speed_kmph calls ⟨i, f, occ⟩ = some st' ∧
        st'.frac = 0 ∧ st'.current_segment = (i + 1) % segments.length := by
  have hL0 : (0 : ℚ) < seg.dist_km := lt_of_lt_of_le (by norm_num) hL
  have hmax : max (1 / 1000000 : ℚ) seg.dist_km = seg.dist_km := max_eq_right hL
  have hnotle : ¬ seg.dist_km ≤ 0 := not_le.mpr hL0
  have hv36 : (0 : ℚ) < speed_kmph / 3600 := by positivity
  intro calls
  induction calls with
  | nil => intro f occ hne; exact absurd rfl hne
  | cons c rest ih =>
    intro f occ _ hpos hocc0 hocc50 hsum
    cases rest with
    | nil =>
      have hsum' : f + speed_kmph / 3600 * c.1 / seg.dist_km = 1 := by
        simpa using hsum
      obtain ⟨o1, ho1, ho1l, ho1u⟩ :=
        alight_update_bounds c.2.alight_coin c.2.alight_draw occ hocc0
      obtain ⟨o2, ho2, ho2l, ho2u⟩ :=
        board_update_bounds c.2.board_coin c.2.board_draw o1 ho1l (le_trans ho1u hocc50)
      have hstep : step segments speed_kmph c.1 c.2 ⟨i, f, occ⟩ =
          some ⟨(i + 1) % segments.length, 0, if 50 < o2 then 50 else o2⟩ := by
        rw [step_eq segments speed_kmph c.1 c.2 ⟨i, f, occ⟩ seg hseg]
        simp only [if_neg hnotle, hmax]
        rw [if_pos (le_of_eq hsum'.symm)]
        rw [ho1]
        dsimp only
        rw [ho2]
      exact ⟨⟨(i + 1) % segments.length, 0, if 50 < o2 then 50 else o2⟩,
        by rw [stepFold_cons, hstep]; rfl, rfl, rfl⟩
    | cons d rest' =>
      have hc : 0 < c.1 := hpos c (List.mem_cons_self c _)
      have hS : 0 < ((d :: rest').map Prod.fst).sum := by
        refine List.sum_pos _ (fun x hx => ?_) (by simp)
        obtain ⟨c', hc', hx⟩ := List.mem_map.mp hx
        exact hx ▸ hpos c' (List.mem_cons_of_mem c hc')
      have hsplit : speed_kmph / 3600 * ((c :: d :: rest').map Prod.fst).sum / seg.dist_km =
          speed_kmph / 3600 * c.1 / seg.dist_km +
            speed_kmph / 3600 * ((d :: rest').map Prod.fst).sum / seg.dist_km := by
        simp only [List.map_cons, List.sum_cons]
        field_simp
        ring
      have hpiece : 0 < speed_kmph / 3600 * ((d :: rest').map Prod.fst).sum / seg.dist_km := by
        positivity
      have hlt : f + speed_kmph / 3600 * c.1 / seg.dist_km < 1 := by
        rw [hsplit] at hsum
        linarith
      have hstep : step segments speed_kmph c.1 c.2 ⟨i, f, occ⟩ =
          some ⟨i, f + speed_kmph / 3600 * c.1 / seg.dist_km, occ⟩ := by
        rw [step_eq segments speed_kmph c.1 c.2 ⟨i, f, occ⟩ seg hseg]
        simp only [if_neg hnotle, hmax]
        rw [if_neg (not_le.mpr hlt)]
      have hsum2 : (f + speed_kmph / 3600 * c.1 / seg.dist_km) +
          speed_kmph / 3600 * ((d :: rest').map Prod.fst).sum / seg.dist_km = 1 := by
        rw [hsplit] at hsum
        linarith
      obtain ⟨st', hst', hfrac, hidx'⟩ :=
        ih (f + speed_kmph / 3600 * c.1 / seg.dist_km) occ (by simp)
          (fun c' hc' => hpos c' (List.mem_cons_of_mem c hc')) hocc0 hocc50 hsum2
      refine ⟨st', ?_, hfrac, hidx'⟩
      rw [stepFold_cons, hstep]
      exact hst'

/-- C3 (amended): over exact arithmetic, when the segment length L is at
least the 1e-6 km guard of step (so that max(1e-6, L) = L) and the speed
is positive, any finite sequence of positive dt values whose total equals
L / (speed/3600) seconds, applied from frac 0, advances the vehicle by
exactly one segment: frac ends at 0 and the segment index has incremented
by exactly 1 modulo the segment count, however the time is split. -/
theorem stepFold_advances_one_segment (segments : List Segment) (speed_kmph : ℚ)
    (seg : Segment) (i : ℕ) (occ : ℤ) (calls : List (ℚ × StepRand))
    (hseg : segments[i]? = some seg)
    (hL : 1 / 1000000 ≤ seg.dist_km) (hv : 0 < speed_kmph)
    (hocc0 : 0 ≤ occ) (hocc50 : occ ≤ 50)
    (hne : calls ≠ []) (hpos : ∀ c ∈ calls, 0 < c.1)
    (hsum : (calls.map Prod.fst).sum = seg.dist_km / (speed_kmph / 3600)) :
    ∃ st', stepFold segments speed_kmph calls ⟨i, 0, occ⟩ = some st' ∧
      st'.frac = 0 ∧ st'.current_segment = (i + 1) % segments.length := by
  have hL0 : (0 : ℚ) < seg.dist_km := lt_of_lt_of_le (by norm_num) hL
  apply stepFold_traverse_aux segments speed_kmph seg i hseg hL hv calls 0 occ hne hpos hocc0 hocc50
  rw [hsum]
  field_simp
  ring

/-- Witness for C3 (amended) at a concrete segment of 2 km traversed in
two half-second steps at 7200 km/h. -/
theorem stepFold_advances_one_segment_witness :
    ∃ st', stepFold [⟨(0, 0), (0, 1), 2⟩] 7200
        [((1/2 : ℚ), ⟨false, 0, false, 0⟩), ((1/2 : ℚ), ⟨true, 1, true, 1⟩)]
        ⟨0, 0, 10⟩ = some st' ∧
      st'.frac = 0 ∧
      st'.current_segment = (0 + 1) % ([⟨(0, 0), (0, 1), 2⟩] : List Segment).length :=
  stepFold_advances_one_segment [⟨(0, 0), (0, 1), 2⟩] 7200 ⟨(0, 0), (0, 1), 2⟩ 0 10
    [((1/2 : ℚ), ⟨false, 0, false, 0⟩), ((1/2 : ℚ), ⟨true, 1, true, 1⟩)]
    rfl (by norm_num) (by norm_num) (by norm_num) (by norm_num) (by simp)
    (by intro c hc; fin_cases hc <;> norm_num) (by norm_num)

/-- C3 counterexample: for a segment shorter than the 1e-6 km guard
(L = 1e-7 km), a single positive dt equal to the full traversal time
L / (speed/3600) leaves frac at 1/10, not 0 — the guard divides by 1e-6
instead of L, so the vehicle does not advance a full segment. -/
theorem stepFold_tiny_segment_stalls :
    stepFold [⟨(0, 0), (0, 1), 1/10000000⟩] 3600
        [((1/10000000 : ℚ), ⟨false, 0, false, 0⟩)] ⟨0, 0, 10⟩ =
      some ⟨0, 1/10, 10⟩ ∧ (1/10 : ℚ) ≠ 0 := by
  constructor
  · rw [stepFold_cons,
      step_eq [⟨(0, 0), (0, 1), 1/10000000⟩] 3600 (1/10000000) ⟨false, 0, false, 0⟩
        ⟨0, 0, 10⟩ ⟨(0, 0), (0, 1), 1/10000000⟩ rfl]
    norm_num [max_def]
    rfl
  · norm_num

/-- C7 (amended): constructing the segment list from exactly one waypoint
succeeds and yields exactly the one degenerate segment whose start equals
its end, with length 0.1 km, for any distance function. -/
theorem mkSegments_single_waypoint (hav : ℚ × ℚ → ℚ × ℚ → ℚ) (w : ℚ × ℚ) :
    mkSegments hav [w] = some [⟨w, w, 1 / 10⟩] := rfl

/-- C7 counterexample: with zero waypoints the constructor does not
succeed — waypoints[0] raises IndexError (modelled as none). -/
theorem mkSegments_nil_raises : mkSegments (fun _ _ => 0) ([] : List (ℚ × ℚ)) = none := rfl

/-! ## main.py: enrichment (\_merge\_bus, lines 412-445) -/

/-- The occupancy label branch of \_merge\_bus (main.py lines 438-444):
the thresholds compare the occupancy count itself against 80 and 60. -/
def occupancy_label (occ : ℤ) : String :=
  if 80 ≤ occ then "crowded" else if 60 ≤ occ then "moderate" else "available"

/-- The synthesized occupancy of \_merge\_bus (main.py lines 434-437) for a
vehicle with no reported occupancy: seed = (abs(hash(bus_id)) +
(time // 600) * 5) % 50 and occupancy = 10 + seed.  idhash stands for
abs(hash(bus_id)) and window for int(time.time() // 600), the current
10-minute window. -/
def synth_occupancy (idhash window : ℕ) : ℕ := 10 + (idhash + window * 5) % 50

/-- The occupancy \_merge\_bus reports: the stored occupancy when present,
else the synthesized one. -/
def merge_bus_occ (stored : Option ℤ) (idhash window : ℕ) : ℤ :=
  match stored with
  | some o => o
  | none => (synth_occupancy idhash window : ℤ)

/-- The occupancy label \_merge\_bus attaches. -/
def merge_bus_label (stored : Option ℤ) (idhash window : ℕ) : String :=
  occupancy_label (merge_bus_occ stored idhash window)

/-- C1: the code labels a stored occupancy of 45 as "available" for every
vehicle id hash and time window — not "crowded" as 45/50 = 90% of the
capacity-50 reference would demand, because the thresholds 80 and 60 are
compared against the raw count, not against a percentage of capacity. -/
theorem merge_bus_label_45 (idhash window : ℕ) :
    merge_bus_label (some 45) idhash window = "available" := rfl

/-- C9: the occupancy synthesized for a vehicle with no reported occupancy
is a function of the id hash and the 10-minute window only, and lies in
[10, 79] (indeed in [10, 59]: the seed is taken mod 50). -/
theorem synthesized_occupancy_range (idhash window : ℕ) :
    10 ≤ merge_bus_occ none idhash window ∧ merge_bus_occ none idhash window ≤ 79 := by
  have h : (idhash + window * 5) % 50 < 50 := Nat.mod_lt _ (by norm_num)
  simp only [merge_bus_occ, synth_occupancy]
  omega

/-! ## main.py: the /buses bounding-box filter (get_all_buses, lines 159-184) -/

/-- A bus row as the buses table stores it: latitude and longitude are
nullable columns. -/
structure DBBus where
  bus_id : String
  latitude : Option ℚ
  longitude : Option ℚ
deriving DecidableEq

/-- A SQL column >= value comparison: NULL compares as unknown, so a row
with a NULL column never passes the filter. -/
def sql_ge (col : Option ℚ) (v : ℚ) : Bool :=
  match col with
  | none => false
  | some x => decide (v ≤ x)

/-- A SQL column <= value comparison, NULL never passing. -/
def sql_le (col : Option ℚ) (v : ℚ) : Bool :=
  match col with
  | none => false
  | some x => decide (x ≤ v)

/-- One optional q.filter(...) application: an absent bound leaves the
query unchanged. -/
def applyBound (q : List DBBus) (bound : Option ℚ) (test : DBBus → ℚ → Bool) :
    List DBBus :=
  match bound with
  | none => q
  | some v => q.filter (fun b => test b v)

/-- get_all_buses (main.py lines 159-184): the four optional bounding-box
filters applied in order to the buses table. -/
def get_all_buses (min_lat max_lat min_lon max_lon : Option ℚ)
    (fleet : List DBBus) : List DBBus :=
  applyBound
    (applyBound
      (applyBound
        (applyBound fleet min_lat (fun b v => sql_ge b.latitude v))
        max_lat (fun b v => sql_le b.latitude v))
      min_lon (fun b v => sql_ge b.longitude v))
    max_lon (fun b v => sql_le b.longitude v)

theorem mem_applyBound (q : List DBBus) (bound : Option ℚ)
    (test : DBBus → ℚ → Bool) (b : DBBus) (h : b ∈ applyBound q bound test) :
    b ∈ q := by
  cases bound with
  | none => exact h
  | some v => exact (List.mem_filter.mp h).1

theorem mem_applyBound_some (q : List DBBus) (v : ℚ)
    (test : DBBus → ℚ → Bool) (b : DBBus) (h : b ∈ applyBound q (some v) test) :
    test b v = true := (List.mem_filter.mp h).2

/-- C6 (amended): with all four bounds unset the filter returns the whole
fleet, vehicles without coordinates included; each bound is inclusive, so
a vehicle whose exact coordinates are used as the bounds is kept; and once
any bound is supplied, a vehicle with no coordinates at all is excluded. -/
theorem get_all_buses_filter_semantics (fleet : List DBBus) (b : DBBus)
    (min_lat max_lat min_lon max_lon : Option ℚ) (la lo : ℚ) :
    (get_all_buses none none none none fleet = fleet) ∧
    (b.latitude = none → b.longitude = none →
      (min_lat.isSome ∨ max_lat.isSome ∨ min_lon.isSome ∨ max_lon.isSome) →
      b ∉ get_all_buses min_lat max_lat min_lon max_lon fleet) ∧
    (b ∈ fleet → b.latitude = some la → b.longitude = some lo →
      b ∈ get_all_buses (some la) (some la) (some lo) (some lo) fleet) := by
  refine ⟨rfl, ?_, ?_⟩
  · intro hlat hlon hsome hmem
    unfold get_all_buses at hmem
    rcases hsome with h | h | h | h
    · obtain ⟨v, hv⟩ := Option.isSome_iff_exists.mp h
      subst hv
      have := mem_applyBound_some _ _ _ _
        (mem_applyBound _ _ _ _ (mem_applyBound _ _ _ _ (mem_applyBound _ _ _ _ hmem)))
      rw [hlat] at this
      exact Bool.false_ne_true this
    · obtain ⟨v, hv⟩ := Option.isSome_iff_exists.mp h
      subst hv
      have := mem_applyBound_some _ _ _ _
        (mem_applyBound _ _ _ _ (mem_applyBound _ _ _ _ hmem))
      rw [hlat] at this
      exact Bool.false_ne_true this
    · obtain ⟨v, hv⟩ := Option.isSome_iff_exists.mp h
      subst hv
      have := mem_applyBound_some _ _ _ _ (mem_applyBound _ _ _ _ hmem)
      rw [hlon] at this
      exact Bool.false_ne_true this
    · obtain ⟨v, hv⟩ := Option.isSome_iff_exists.mp h
      subst hv
      have := mem_applyBound_some _ _ _ _ hmem
      rw [hlon] at this
      exact Bool.false_ne_true this
  · intro hmem hlat hlon
    unfold get_all_buses applyBound
    simp only [List.mem_filter]
    refine ⟨⟨⟨⟨hmem, ?_⟩, ?_⟩, ?_⟩, ?_⟩ <;>
      simp [sql_ge, sql_le, hlat, hlon]

/-- Witness for C6 at a one-row fleet whose exact coordinates are the
bounds, and a coordinate-less row against a supplied bound. -/
theorem get_all_buses_filter_semantics_witness :
    (⟨"PTC101", some 31, some 74⟩ : DBBus) ∈
        get_all_buses (some 31) (some 31) (some 74) (some 74)
          [⟨"PTC101", some 31, some 74⟩] ∧
    (⟨"PTC999", none, none⟩ : DBBus) ∉
        get_all_buses (some 31) none none none
          [⟨"PTC999", none, none⟩, ⟨"PTC101", some 31, some 74⟩] :=
  ⟨(get_all_buses_filter_semantics [⟨"PTC101", some 31, some 74⟩]
      ⟨"PTC101", some 31, some 74⟩ none none none none 31 74).2.2
      (by decide) rfl rfl,
   (get_all_buses_filter_semantics [⟨"PTC999", none, none⟩, ⟨"PTC101", some 31, some 74⟩]
      ⟨"PTC999", none, none⟩ (some 31) none none none 0 0).2.1
      rfl rfl (by decide)⟩

/-- C6 counterexample: with all four bounds unset, a fleet holding a
vehicle with no coordinates is returned whole — not restricted to the
vehicles that have coordinates, as the claim states. -/
theorem get_all_buses_unbounded_keeps_coordless :
    get_all_buses none none none none [⟨"PTC999", none, none⟩] =
        [⟨"PTC999", none, none⟩] ∧
      List.filter (fun b => b.latitude.isSome && b.longitude.isSome)
          [(⟨"PTC999", none, none⟩ : DBBus)] = [] := by
  exact ⟨rfl, rfl⟩

/-! ## The haversine distance (main.py lines 192-198, moving_sim.py lines
83-89), over the reals -/

noncomputable section

/-- math.radians: degrees to radians. -/
def radians (x : ℝ) : ℝ := x * Real.pi / 180

/-- math.atan2 for real arguments: the quadrant-aware arctangent. -/
def atan2 (y x : ℝ) : ℝ :=
  if 0 < x then Real.arctan (y / x)
  else if x < 0 then
    (if 0 ≤ y then Real.arctan (y / x) + Real.pi else Real.arctan (y / x) - Real.pi)
  else
    (if 0 < y then Real.pi / 2 else if y < 0 then -(Real.pi / 2) else 0)

/-- The haversine intermediate a = sin²(dlat/2) + cos(lat1)·cos(lat2)·
sin²(dlon/2); main.py's haversine_m and moving_sim.py's haversine_km
compute the same expression. -/
def hav_a (lat1 lon1 lat2 lon2 : ℝ) : ℝ :=
  Real.sin (radians (lat2 - lat1) / 2) ^ 2 +
    Real.cos (radians lat1) * Real.cos (radians lat2) *
      Real.sin (radians (lon2 - lon1) / 2) ^ 2

/-- The haversine central angle c = 2 * atan2(sqrt(a), sqrt(1 - a)). -/
def hav_c (lat1 lon1 lat2 lon2 : ℝ) : ℝ :=
  2 * atan2 (Real.sqrt (hav_a lat1 lon1 lat2 lon2))
    (Real.sqrt (1 - hav_a lat1 lon1 lat2 lon2))

/-- haversine_m of main.py: Earth radius 6,371,000 m. -/
def haversine_m (lat1 lon1 lat2 lon2 : ℝ) : ℝ :=
  6371000 * hav_c lat1 lon1 lat2 lon2

/-- haversine_km of moving_sim.py: Earth radius 6,371 km. -/
def haversine_km (lat1 lon1 lat2 lon2 : ℝ) : ℝ :=
  6371 * hav_c lat1 lon1 lat2 lon2

theorem hav_a_comm (lat1 lon1 lat2 lon2 : ℝ) :
    hav_a lat1 lon1 lat2 lon2 = hav_a lat2 lon2 lat1 lon1 := by
  unfold hav_a
  have h1 : radians (lat1 - lat2) = -(radians (lat2 - lat1)) := by unfold radians; ring
  have h2 : radians (lon1 - lon2) = -(radians (lon2 - lon1)) := by unfold radians; ring
  rw [h1, h2, neg_div, neg_div, Real.sin_neg, Real.sin_neg, neg_sq, neg_sq]
  ring

theorem hav_c_comm (lat1 lon1 lat2 lon2 : ℝ) :
    hav_c lat1 lon1 lat2 lon2 = hav_c lat2 lon2 lat1 lon1 := by
  unfold hav_c
  rw [hav_a_comm]

theorem atan2_nonneg (y x : ℝ) (hy : 0 ≤ y) (hx : 0 ≤ x) : 0 ≤ atan2 y x := by
  unfold atan2
  by_cases h1 : 0 < x
  · rw [if_pos h1]
    have hq : (0 : ℝ) ≤ y / x := div_nonneg hy (le_of_lt h1)
    have := Real.arctan_strictMono.monotone hq
    rwa [Real.arctan_zero] at this
  · have hx0 : x = 0 := le_antisymm (not_lt.mp h1) hx
    subst hx0
    rw [if_neg (lt_irrefl 0), if_neg (lt_irrefl 0)]
    by_cases h2 : 0 < y
    · rw [if_pos h2]
      positivity
    · rw [if_neg h2, if_neg (not_lt.mpr hy)]

theorem hav_c_nonneg (lat1 lon1 lat2 lon2 : ℝ) : 0 ≤ hav_c lat1 lon1 lat2 lon2 := by
  unfold hav_c
  have h := atan2_nonneg (Real.sqrt (hav_a lat1 lon1 lat2 lon2))
    (Real.sqrt (1 - hav_a lat1 lon1 lat2 lon2)) (Real.sqrt_nonneg _) (Real.sqrt_nonneg _)
  linarith

theorem atan2_zero_one : atan2 0 1 = 0 := by
  unfold atan2
  rw [if_pos one_pos]
  simp [Real.arctan_zero]

theorem atan2_one_zero : atan2 1 0 = Real.pi / 2 := by
  unfold atan2
  rw [if_neg (lt_irrefl 0), if_neg (lt_irrefl 0), if_pos one_pos]

theorem hav_a_self (lat lon : ℝ) : hav_a lat lon lat lon = 0 := by
  unfold hav_a
  simp [radians]

theorem hav_c_self (lat lon : ℝ) : hav_c lat lon lat lon = 0 := by
  unfold hav_c
  rw [hav_a_self]
  norm_num [Real.sqrt_zero, Real.sqrt_one, atan2_zero_one]

/-- C4 (amended): within the claimed coordinate ranges both haversine
functions are symmetric, zero on equal coordinate pairs, and never
negative; the missing direction (distance zero only if the coordinates
are equal) is refuted at the pole. -/
theorem haversine_props (lat1 lon1 lat2 lon2 : ℝ)
    (h1 : -90 ≤ lat1) (h2 : lat1 ≤ 90) (h3 : -90 ≤ lat2) (h4 : lat2 ≤ 90)
    (h5 : -180 ≤ lon1) (h6 : lon1 ≤ 180) (h7 : -180 ≤ lon2) (h8 : lon2 ≤ 180) :
    haversine_m lat1 lon1 lat2 lon2 = haversine_m lat2 lon2 lat1 lon1 ∧
    haversine_m lat1 lon1 lat1 lon1 = 0 ∧
    0 ≤ haversine_m lat1 lon1 lat2 lon2 ∧
    haversine_km lat1 lon1 lat2 lon2 = haversine_km lat2 lon2 lat1 lon1 ∧
    haversine_km lat1 lon1 lat1 lon1 = 0 ∧
    0 ≤ haversine_km lat1 lon1 lat2 lon2 ∧
    ((lat1 = lat2 ∧ lon1 = lon2) → haversine_m lat1 lon1 lat2 lon2 = 0) := by
  have hc := hav_c_comm lat1 lon1 lat2 lon2
  have hs := hav_c_self lat1 lon1
  have hn := hav_c_nonneg lat1 lon1 lat2 lon2
  refine ⟨?_, ?_, ?_, ?_, ?_, ?_, ?_⟩
  · unfold haversine_m; rw [hc]
  · unfold haversine_m; rw [hs]; ring
  · unfold haversine_m; positivity
  · unfold haversine_km; rw [hc]
  · unfold haversine_km; rw [hs]; ring
  · unfold haversine_km; positivity
  · rintro ⟨rfl, rfl⟩
    unfold haversine_m; rw [hs]; ring

/-- Witness for C4 at concrete in-range coordinates. -/
theorem haversine_props_witness :
    haversine_m 10 20 30 40 = haversine_m 30 40 10 20 ∧
    haversine_m 10 20 10 20 = 0 ∧
    0 ≤ haversine_m 10 20 30 40 ∧
    haversine_km 10 20 30 40 = haversine_km 30 40 10 20 ∧
    haversine_km 10 20 10 20 = 0 ∧
    0 ≤ haversine_km 10 20 30 40 ∧
    (((10 : ℝ) = 30 ∧ (20 : ℝ) = 40) → haversine_m 10 20 30 40 = 0) :=
  haversine_props 10 20 30 40 (by norm_num) (by norm_num) (by norm_num) (by norm_num)
    (by norm_num) (by norm_num) (by norm_num) (by norm_num)

/-- C4 counterexample: the two in-range points (90, 0) and (90, 1) differ,
yet both haversine distances between them are exactly zero — at the pole
cos(radians 90) = 0 kills the longitude term — so distance zero does not
imply equal coordinates. -/
theorem haversine_zero_at_pole :
    haversine_m 90 0 90 1 = 0 ∧ haversine_km 90 0 90 1 = 0 ∧ (0 : ℝ) ≠ 1 ∧
      -90 ≤ (90 : ℝ) ∧ (90 : ℝ) ≤ 90 ∧ -180 ≤ (0 : ℝ) ∧ (0 : ℝ) ≤ 180 ∧
      -180 ≤ (1 : ℝ) ∧ (1 : ℝ) ≤ 180 := by
  have ha : hav_a 90 0 90 1 = 0 := by
    unfold hav_a
    rw [show radians ((90 : ℝ) - 90) = 0 by unfold radians; norm_num,
      show radians (90 : ℝ) = Real.pi / 2 by unfold radians; ring]
    simp [Real.cos_pi_div_two]
  have hcz : hav_c 90 0 90 1 = 0 := by
    unfold hav_c
    rw [ha]
    norm_num [Real.sqrt_zero, Real.sqrt_one, atan2_zero_one]
  refine ⟨?_, ?_, by norm_num, by norm_num, by norm_num, by norm_num, by norm_num,
    by norm_num, by norm_num⟩
  · unfold haversine_m; rw [hcz]; ring
  · unfold haversine_km; rw [hcz]; ring

end

/-! ## main.py: the nearest endpoint (lines 335-351) -/

/-- A static stop of MASTER_STOPS. -/
structure Stop where
  name : String
  lat : ℝ
  lon : ℝ

/-- A bus row as the nearest endpoint reads it from the database. -/
structure FleetBus where
  bus_id : String
  latitude : Option ℝ
  longitude : Option ℝ
  occupancy : Option ℤ

/-- One entry of the nearest_stops list: a stop with its computed int
distance in metres. -/
structure NearStop where
  stop : Stop
  dist_m : ℤ

/-- One entry of the nearest_buses list. -/
structure NearBus where
  bus_id : String
  lat : ℝ
  lon : ℝ
  occupancy : Option ℤ
  dist_m : ℤ

noncomputable section

/-- Python int() on a float: truncation toward zero. -/
def pyint (x : ℝ) : ℤ := if x < 0 then ⌈x⌉ else ⌊x⌋

/-- The stops half of nearest (main.py lines 338-342, 351): distance from
the query point to every stop, sort ascending on the int distance (Python
list.sort is a stable merge sort), truncate to max_results. -/
def nearest_stops (lat lon : ℝ) (stops : List Stop) (max_results : ℕ) :
    List NearStop :=
  ((stops.map fun s => ⟨s, pyint (haversine_m lat lon s.lat s.lon)⟩).mergeSort
      fun x y => decide (x.dist_m ≤ y.dist_m)).take max_results

/-- The buses half of nearest (main.py lines 344-351): keep only rows
whose latitude and longitude are both non-NULL, compute each int distance,
sort ascending, truncate to max_results. -/
def nearest_buses (lat lon : ℝ) (fleet : List FleetBus) (max_results : ℕ) :
    List NearBus :=
  ((fleet.filterMap fun b =>
      match b.latitude, b.longitude with
      | some la, some lo =>
        some ⟨b.bus_id, la, lo, b.occupancy, pyint (haversine_m lat lon la lo)⟩
      | _, _ => none).mergeSort
    fun x y => decide (x.dist_m ≤ y.dist_m)).take max_results

/-- nearest (main.py lines 335-351): the pair of truncated sorted lists it
returns; max_results defaults to 5 in the code. -/
def nearest (lat lon : ℝ) (stops : List Stop) (fleet : List FleetBus)
    (max_results : ℕ) : List NearStop × List NearBus :=
  (nearest_stops lat lon stops max_results, nearest_buses lat lon fleet max_results)

end

/-- Sorting with the boolean comparator on an integer key yields a list
pairwise non-decreasing in that key. -/
theorem mergeSort_key_sorted {α : Type} (f : α → ℤ) (l : List α) :
    (l.mergeSort fun x y => decide (f x ≤ f y)).Pairwise fun x y => f x ≤ f y := by
  have h := @List.sorted_mergeSort α (fun x y => decide (f x ≤ f y))
    (fun a b c hab hbc => by
      simp only [decide_eq_true_eq] at hab hbc ⊢
      exact le_trans hab hbc)
    (fun a b => by
      simp only [Bool.or_eq_true, decide_eq_true_eq]
      exact le_total (f a) (f b))
    l
  exact h.imp fun hab => by simpa using hab

/-- C5 (amended): both halves of the nearest result are non-decreasing
(sorted ascending) in the int distance, have length at most the requested
limit, and the buses half holds exactly rows derived from fleet vehicles
whose latitude and longitude are both present. -/
theorem nearest_sorted_bounded (lat lon : ℝ) (stops : List Stop)
    (fleet : List FleetBus) (k : ℕ) :
    ((nearest lat lon stops fleet k).1.Pairwise fun x y => x.dist_m ≤ y.dist_m) ∧
    (nearest lat lon stops fleet k).1.length ≤ k ∧
    ((nearest lat lon stops fleet k).2.Pairwise fun x y => x.dist_m ≤ y.dist_m) ∧
    (nearest lat lon stops fleet k).2.length ≤ k ∧
    ∀ e ∈ (nearest lat lon stops fleet k).2, ∃ b ∈ fleet,
      b.bus_id = e.bus_id ∧ b.latitude = some e.lat ∧ b.longitude = some e.lon ∧
        b.occupancy = e.occupancy := by
  refine ⟨?_, ?_, ?_, ?_, ?_⟩
  · exact List.Pairwise.sublist (List.take_sublist _ _)
      (mergeSort_key_sorted (fun e : NearStop => e.dist_m) _)
  · rw [show (nearest lat lon stops fleet k).1.length =
      min k ((stops.map fun s =>
        (⟨s, pyint (haversine_m lat lon s.lat s.lon)⟩ : NearStop)).mergeSort
          fun x y => decide (x.dist_m ≤ y.dist_m)).length from List.length_take _ _]
    exact min_le_left _ _
  · exact List.Pairwise.sublist (List.take_sublist _ _)
      (mergeSort_key_sorted (fun e : NearBus => e.dist_m) _)
  · rw [show (nearest lat lon stops fleet k).2.length =
      min k ((fleet.filterMap fun b =>
        match b.latitude, b.longitude with
        | some la, some lo =>
          some (⟨b.bus_id, la, lo, b.occupancy, pyint (haversine_m lat lon la lo)⟩ : NearBus)
        | _, _ => none).mergeSort
          fun x y => decide (x.dist_m ≤ y.dist_m)).length from List.length_take _ _]
    exact min_le_left _ _
  · intro e he
    have he2 : e ∈ fleet.filterMap fun b =>
        match b.latitude, b.longitude with
        | some la, some lo =>
          some (⟨b.bus_id, la, lo, b.occupancy, pyint (haversine_m lat lon la lo)⟩ : NearBus)
        | _, _ => none :=
      List.mem_mergeSort.mp ((List.take_sublist _ _).subset he)
    obtain ⟨b, hb, hfb⟩ := List.mem_filterMap.mp he2
    cases hla : b.latitude with
    | none => rw [hla] at hfb; exact absurd hfb (by simp)
    | some la =>
      cases hlo : b.longitude with
      | none => rw [hla, hlo] at hfb; exact absurd hfb (by simp)
      | some lo =>
        rw [hla, hlo] at hfb
        dsimp only at hfb
        obtain rfl := Option.some.inj hfb
        exact ⟨b, hb, rfl, hla, hlo, rfl⟩

/-- C5 counterexample: the nearest-buses result is sorted ascending, so it
is not non-increasing in distance: for a query at (0, 0) over a fleet with
one bus at (0, 0) (distance 0) and one at (0, 180) (half the Earth's
circumference away), the returned distances strictly increase. -/
theorem nearest_not_nonincreasing :
    ¬ ((nearest 0 0 []
        [⟨"B1", some 0, some 0, none⟩, ⟨"B2", some 0, some 180, none⟩] 5).2.Pairwise
          fun x y => y.dist_m ≤ x.dist_m) := by
  intro h
  have hd1 : pyint (haversine_m 0 0 0 0) = 0 := by
    have h0 : haversine_m 0 0 0 0 = 0 := by
      unfold haversine_m
      rw [hav_c_self]
      ring
    rw [h0]
    unfold pyint
    rw [if_neg (lt_irrefl 0)]
    exact Int.floor_zero
  have hm : haversine_m 0 0 0 180 = 6371000 * Real.pi := by
    have ha : hav_a 0 0 0 180 = 1 := by
      unfold hav_a
      rw [show radians ((0:ℝ) - 0) = 0 by unfold radians; norm_num,
        show radians ((180:ℝ) - 0) = Real.pi by unfold radians; ring,
        show radians (0:ℝ) = 0 by unfold radians; norm_num]
      norm_num [Real.sin_pi_div_two, Real.sin_zero, Real.cos_zero]
    unfold haversine_m hav_c
    rw [ha]
    norm_num [Real.sqrt_one, Real.sqrt_zero, atan2_one_zero]
    ring
  have hd2 : 1 ≤ pyint (haversine_m 0 0 0 180) := by
    rw [hm]
    unfold pyint
    have hpos : (0:ℝ) ≤ 6371000 * Real.pi := by positivity
    rw [if_neg (not_lt.mpr hpos)]
    rw [Int.le_floor]
    have hpi := Real.pi_gt_three
    push_cast
    nlinarith
  have hperm := List.mergeSort_perm
    [(⟨"B1", 0, 0, none, pyint (haversine_m 0 0 0 0)⟩ : NearBus),
     ⟨"B2", 0, 180, none, pyint (haversine_m 0 0 0 180)⟩]
    fun x y => decide (x.dist_m ≤ y.dist_m)
  have hsorted := mergeSort_key_sorted (fun e : NearBus => e.dist_m)
    [⟨"B1", 0, 0, none, pyint (haversine_m 0 0 0 0)⟩,
     ⟨"B2", 0, 180, none, pyint (haversine_m 0 0 0 180)⟩]
  have hlen2 : (List.mergeSort
      [(⟨"B1", 0, 0, none, pyint (haversine_m 0 0 0 0)⟩ : NearBus),
       ⟨"B2", 0, 180, none, pyint (haversine_m 0 0 0 180)⟩]
      fun x y => decide (x.dist_m ≤ y.dist_m)).length = 2 := by
    rw [List.length_mergeSort]
    rfl
  have h' : (List.mergeSort
      [(⟨"B1", 0, 0, none, pyint (haversine_m 0 0 0 0)⟩ : NearBus),
       ⟨"B2", 0, 180, none, pyint (haversine_m 0 0 0 180)⟩]
      fun x y => decide (x.dist_m ≤ y.dist_m)).Pairwise
        (fun x y => y.dist_m ≤ x.dist_m) := by
    have ht := List.take_of_length_le (le_of_eq_of_le hlen2 (by norm_num) :
      (List.mergeSort
        [(⟨"B1", 0, 0, none, pyint (haversine_m 0 0 0 0)⟩ : NearBus),
         ⟨"B2", 0, 180, none, pyint (haversine_m 0 0 0 180)⟩]
        fun x y => decide (x.dist_m ≤ y.dist_m)).length ≤ 5)
    rw [← ht]
    exact h
  obtain ⟨a, b, hab⟩ := List.length_eq_two.mp hlen2
  rw [hab] at h' hsorted hperm
  have hba : b.dist_m ≤ a.dist_m := (List.pairwise_cons.mp h').1 b (by simp)
  have hab2 : a.dist_m ≤ b.dist_m := (List.pairwise_cons.mp hsorted).1 b (by simp)
  have hmem1 : (⟨"B1", 0, 0, none, pyint (haversine_m 0 0 0 0)⟩ : NearBus) ∈ [a, b] :=
    hperm.mem_iff.mpr (by simp)
  have hmem2 : (⟨"B2", 0, 180, none, pyint (haversine_m 0 0 0 180)⟩ : NearBus) ∈ [a, b] :=
    hperm.mem_iff.mpr (by simp)
  simp only [List.mem_cons, List.not_mem_nil, or_false] at hmem1 hmem2
  have hkey : (⟨"B1", 0, 0, none, pyint (haversine_m 0 0 0 0)⟩ : NearBus).dist_m =
      (⟨"B2", 0, 180, none, pyint (haversine_m 0 0 0 180)⟩ : NearBus).dist_m := by
    rcases hmem1 with h1 | h1 <;> rcases hmem2 with h2 | h2
    · rw [h1.trans h2.symm]
    · rw [h1, h2]; omega
    · rw [h1, h2]; omega
    · rw [h1.trans h2.symm]
  dsimp only at hkey
  omega

end SIH
